import Mathlib

/-!
Shallow embedding of the `arrow_udf_poc` repository (files `src/arrow.rs` and
`src/lib.rs`): an Arrow C Data Interface bridge that validates a pair of raw
descriptors, walks the data buffer of an int64 column with a cursor, and folds
the yielded values with `accumulator + (item - scalar).abs()`.

Machine integers are modelled as `Int` with explicit two's-complement wrapping
(`% 2 ^ 64`); host memory is a function from byte address to the signed 64-bit
value obtained by reading 8 bytes there; Rust panics become `Except.error`
with the source's panic message.
-/

namespace ArrowUdf

/-- Two's-complement normalisation of an unbounded integer into the signed
64-bit range `[-2 ^ 63, 2 ^ 63)`; this is the wrapping of `i64`/`isize`
arithmetic (release-mode Rust semantics, as the spec's §7 states). -/
def wrap64 (x : Int) : Int := (x + 2 ^ 63) % 2 ^ 64 - 2 ^ 63

/-- The cast `x as usize` applied to an `i64` value: reduction modulo `2 ^ 64`
into `[0, 2 ^ 64)`, represented as a `Nat`. -/
def i64ToUsize (x : Int) : Nat := (x % 2 ^ 64).toNat

/-- The cast `n as isize` applied to a `usize` value: two's-complement
reinterpretation of the low 64 bits. -/
def usizeToIsize (n : Nat) : Int := wrap64 n

/-- `ArrowType` from `src/arrow.rs`: the closed enumeration of primitive
physical types. -/
inductive ArrowType where
  | Null
  | Boolean
  | Int8
  | Uint8
  | Int16
  | Uint16
  | Int32
  | Uint32
  | Int64
  | Uint64
  | Float16
  | Float32
  | Float64
deriving DecidableEq, Repr

/-- `ArrowType::from` from `src/arrow.rs`: decode a format string; the
`todo!()` arm for every unrecognised string is modelled as `none` (a panic
whose message is the Rust default "not yet implemented"). -/
def ArrowType.ofFormat (format_str : String) : Option ArrowType :=
  match format_str with
  | "n" => some ArrowType.Null
  | "b" => some ArrowType.Boolean
  | "c" => some ArrowType.Int8
  | "C" => some ArrowType.Uint8
  | "s" => some ArrowType.Int16
  | "S" => some ArrowType.Uint16
  | "i" => some ArrowType.Int32
  | "I" => some ArrowType.Uint32
  | "l" => some ArrowType.Int64
  | "L" => some ArrowType.Uint64
  | "e" => some ArrowType.Float16
  | "f" => some ArrowType.Float32
  | "g" => some ArrowType.Float64
  | _ => none

/-- `ArrowCDataInterfaceSchema` from `src/arrow.rs`. Only `format` is read by
the program; the remaining fields are carried as inert data (raw pointers are
addresses, i.e. `Nat`). The `format` field stands for the decoded text of the
null-terminated C string behind the raw pointer. -/
structure ArrowCDataInterfaceSchema where
  format : String
  name : String
  metadata : String
  flags : Int
  n_children : Int
  children : Nat
  dictionary : Nat
  private_data : Nat

/-- `ArrowCDataInterfaceSchema::dtype` from `src/arrow.rs`: decode the format
string on demand. -/
def ArrowCDataInterfaceSchema.dtype (s : ArrowCDataInterfaceSchema) : Option ArrowType :=
  ArrowType.ofFormat s.format

/-- `ArrowCDataInterfaceArray` from `src/arrow.rs`. `buffers` stands for the
pointed-to list of raw buffer addresses (`*mut *const c_void`): `buffers 0` is
the validity bitmap address, `buffers 1` the data buffer address. The integer
fields are `i64` in the source. -/
structure ArrowCDataInterfaceArray where
  length : Int
  null_count : Int
  offset : Int
  n_buffers : Int
  n_children : Int
  buffers : Nat → Nat
  children : Nat
  dictionary : Nat
  private_data : Nat

/-- `ArrowArray` from `src/arrow.rs`: the cursor. `index : isize`,
`length`, `data_addr`, `validity_addr : usize`. -/
structure ArrowArray where
  index : Int
  length : Nat
  data_addr : Nat
  validity_addr : Nat
deriving DecidableEq, Repr

/-- `ArrowArray::from` from `src/arrow.rs`. The two raw pointers are already
dereferenced into the descriptor records; each `panic!`/`todo!` becomes
`Except.error` carrying the panic message. On success the cursor captures
`length as usize`, `*buffers.offset(1) as usize` and `*buffers as usize`. -/
def ArrowArray.fromRaw (interface_array : ArrowCDataInterfaceArray)
    (interface_schema : ArrowCDataInterfaceSchema) : Except String ArrowArray :=
  match interface_schema.dtype with
  | none => Except.error "not yet implemented"
  | some t =>
    if t ≠ ArrowType.Int64 then
      Except.error "Extension only implemented for i64"
    else if interface_array.n_buffers ≠ 2 then
      Except.error ("Extension only implemented for 2-buffer arrays, found "
        ++ toString interface_array.n_buffers)
    else
      Except.ok
        { index := 0
          length := i64ToUsize interface_array.length
          data_addr := interface_array.buffers 1
          validity_addr := interface_array.buffers 0 }

/-- `Iterator::next for ArrowArray` from `src/arrow.rs`. `mem` maps a byte
address to the `i64` read at it; the read is `*base_ptr.offset(self.index)`,
i.e. the 8-byte value at `data_addr + 8 * index`. The guard compares `index`
with `self.length as isize`; the increment is `isize` (wrapping) addition. -/
def ArrowArray.next (mem : Int → Int) (a : ArrowArray) : Option Int × ArrowArray :=
  if a.index ≥ usizeToIsize a.length then
    (none, a)
  else
    (some (mem ((a.data_addr : Int) + 8 * a.index)),
      { a with index := wrap64 (a.index + 1) })

/-- `reduction_udf` from `src/lib.rs`:
`accumulator + (array_item - other).abs()` with `i64` wrapping semantics
(the subtraction, the absolute value and the addition each wrap). -/
def reduction_udf (accumulator : Int) (array_item : Int) (other : Int) : Int :=
  wrap64 (accumulator + wrap64 |wrap64 (array_item - other)|)

theorem wrap64_eq (x : Int) :
    wrap64 x = (x + 9223372036854775808) % 18446744073709551616 - 9223372036854775808 := by
  norm_num [wrap64]

theorem wrap64_lb (x : Int) : -9223372036854775808 ≤ wrap64 x := by
  rw [wrap64_eq]
  omega

theorem wrap64_lt (x : Int) : wrap64 x < 9223372036854775808 := by
  rw [wrap64_eq]
  omega

theorem wrap64_of_mem {x : Int} (h1 : -9223372036854775808 ≤ x)
    (h2 : x < 9223372036854775808) : wrap64 x = x := by
  rw [wrap64_eq]
  omega

theorem i64ToUsize_eq (x : Int) :
    (i64ToUsize x : Int) = x % 18446744073709551616 := by
  have : (0 : Int) ≤ x % 18446744073709551616 := by omega
  norm_num [i64ToUsize]
  omega

theorem usizeToIsize_le (n : Nat) : usizeToIsize n ≤ (n : Int) := by
  have h : (0 : Int) ≤ (n : Int) := Int.natCast_nonneg n
  rw [usizeToIsize, wrap64_eq]
  omega

theorem usizeToIsize_of_lt {n : Nat} (h : (n : Int) < 9223372036854775808) :
    usizeToIsize n = (n : Int) := by
  have h0 : (0 : Int) ≤ (n : Int) := Int.natCast_nonneg n
  rw [usizeToIsize, wrap64_eq]
  omega

theorem usizeToIsize_i64ToUsize {x : Int} (h1 : -9223372036854775808 ≤ x)
    (h2 : x < 9223372036854775808) : usizeToIsize (i64ToUsize x) = x := by
  rw [usizeToIsize, wrap64_eq, i64ToUsize_eq]
  omega

theorem i64ToUsize_of_nonneg {x : Int} (h0 : 0 ≤ x)
    (h2 : x < 18446744073709551616) : (i64ToUsize x : Int) = x := by
  rw [i64ToUsize_eq]
  omega

theorem next_measure {a : ArrowArray} (h : ¬ a.index ≥ usizeToIsize a.length) :
    (usizeToIsize a.length - wrap64 (a.index + 1)).toNat
      < (usizeToIsize a.length - a.index).toNat := by
  have hlb := wrap64_lb ((a.length : Nat) : Int)
  have hlt := wrap64_lt ((a.length : Nat) : Int)
  rw [usizeToIsize] at *
  rcases le_or_lt (-9223372036854775808 : Int) a.index with hc | hc
  · have hw : wrap64 (a.index + 1) = a.index + 1 := by
      apply wrap64_of_mem (by omega)
      omega
    omega
  · have h1 := wrap64_lb (a.index + 1)
    have h2 := wrap64_lt (a.index + 1)
    omega

/-- Draining the cursor: the (finite) sequence of values successive calls to
`ArrowArray.next` yield until exhaustion. This is the sequence the Rust
`for item in arrow_array` loop observes. -/
def ArrowArray.toList (mem : Int → Int) (a : ArrowArray) : List Int :=
  if a.index ≥ usizeToIsize a.length then
    []
  else
    mem ((a.data_addr : Int) + 8 * a.index) ::
      ArrowArray.toList mem { a with index := wrap64 (a.index + 1) }
termination_by (usizeToIsize a.length - a.index).toNat
decreasing_by exact next_measure (by assumption)

/-- The `for item in arrow_array { accumulator = reduction_udf(...) }` loop of
`euclidean_1d_scalar_sum` in `src/lib.rs`: repeatedly pull the cursor and fold
each yielded value with `reduction_udf` until `next` yields nothing. -/
def reduceLoop (mem : Int → Int) (other : Int) (accumulator : Int)
    (a : ArrowArray) : Int :=
  if a.index ≥ usizeToIsize a.length then
    accumulator
  else
    reduceLoop mem other
      (reduction_udf accumulator (mem ((a.data_addr : Int) + 8 * a.index)) other)
      { a with index := wrap64 (a.index + 1) }
termination_by (usizeToIsize a.length - a.index).toNat
decreasing_by exact next_measure (by assumption)

/-- `euclidean_1d_scalar_sum` from `src/lib.rs`: construct the cursor from the
two descriptors (propagating any panic as an error), then fold the yielded
values starting from accumulator `0`. The timing `println!` is an
observational side effect with no influence on the returned value and is not
modelled. -/
def euclidean_1d_scalar_sum (mem : Int → Int) (array_pointer : ArrowCDataInterfaceArray)
    (schema_pointer : ArrowCDataInterfaceSchema) (other : Int) : Except String Int :=
  match ArrowArray.fromRaw array_pointer schema_pointer with
  | Except.error e => Except.error e
  | Except.ok arrow_array => Except.ok (reduceLoop mem other 0 arrow_array)

/-- Sanity link: `toList` is exactly what repeated pulls of `next` produce. -/
theorem toList_eq_next (mem : Int → Int) (a : ArrowArray) :
    a.toList mem =
      match a.next mem with
      | (none, _) => []
      | (some v, a2) => v :: a2.toList mem := by
  rw [ArrowArray.toList, ArrowArray.next]
  split <;> simp

/-- Sanity link: `reduceLoop` folds `reduction_udf` over the yielded list. -/
theorem reduceLoop_eq_foldl (mem : Int → Int) (other : Int) (accumulator : Int)
    (a : ArrowArray) :
    reduceLoop mem other accumulator a =
      (a.toList mem).foldl (fun acc item => reduction_udf acc item other) accumulator := by
  rw [reduceLoop, ArrowArray.toList]
  split
  · simp
  · rw [List.foldl_cons]
    exact reduceLoop_eq_foldl mem other _ _
termination_by (usizeToIsize a.length - a.index).toNat
decreasing_by exact next_measure (by assumption)

/-- Inversion of a successful construction: the cursor a successful
`ArrowArray.fromRaw` returns, and the checks that must have passed. -/
theorem fromRaw_ok_shape {arr : ArrowCDataInterfaceArray}
    {schema : ArrowCDataInterfaceSchema} {c : ArrowArray}
    (h : ArrowArray.fromRaw arr schema = Except.ok c) :
    c = { index := 0, length := i64ToUsize arr.length,
          data_addr := arr.buffers 1, validity_addr := arr.buffers 0 }
      ∧ schema.dtype = some ArrowType.Int64 ∧ arr.n_buffers = 2 := by
  unfold ArrowArray.fromRaw at h
  split at h
  · exact absurd h (by simp)
  · rename_i t ht
    by_cases hty : t = ArrowType.Int64
    · subst hty
      rw [if_neg (by simp)] at h
      by_cases hb : arr.n_buffers = 2
      · rw [if_neg (by simp [hb])] at h
        simp only [Except.ok.injEq] at h
        exact ⟨h.symm, ht, hb⟩
      · rw [if_pos hb] at h
        exact absurd h (by simp)
    · rw [if_pos hty] at h
      exact absurd h (by simp)

/-- Characterisation of the drained sequence: starting `k` slots before the
declared end, the cursor yields the `k` memory words at
`data_addr + 8 * (index + j)`, `j = 0 .. k - 1`. -/
theorem toList_spec (mem : Int → Int) :
    ∀ (k : Nat) (a : ArrowArray), ((a.length : Nat) : Int) < 9223372036854775808 →
    0 ≤ a.index → a.index + k = ((a.length : Nat) : Int) →
    a.toList mem =
      (List.range k).map
        (fun j : Nat => mem ((a.data_addr : Int) + 8 * (a.index + (j : Int)))) := by
  intro k
  induction k with
  | zero =>
    intro a hlen h0 hk
    rw [ArrowArray.toList, if_pos]
    · simp
    · rw [usizeToIsize_of_lt hlen]
      push_cast at hk
      omega
  | succ k ih =>
    intro a hlen h0 hk
    have husz : usizeToIsize a.length = ((a.length : Nat) : Int) :=
      usizeToIsize_of_lt hlen
    push_cast at hk
    have hlt : a.index < usizeToIsize a.length := by
      rw [husz]
      omega
    rw [ArrowArray.toList, if_neg (by omega)]
    have hw : wrap64 (a.index + 1) = a.index + 1 := by
      apply wrap64_of_mem (by omega)
      rw [husz] at hlt
      omega
    have htail := ih { a with index := wrap64 (a.index + 1) }
      (by simpa using hlen)
      (by show (0 : Int) ≤ wrap64 (a.index + 1); rw [hw]; omega)
      (by show wrap64 (a.index + 1) + ((k : Nat) : Int) = ((a.length : Nat) : Int)
          rw [hw]; omega)
    rw [htail]
    dsimp only
    rw [List.range_succ_eq_map, List.map_cons, List.map_map]
    rw [List.cons_eq_cons]
    constructor
    · exact congrArg mem (by push_cast; ring)
    · apply List.map_congr_left
      intro j _
      simp only [Function.comp_apply, hw]
      exact congrArg mem (by push_cast; ring)

/-- The drained sequence only depends on the memory contents of the address
range the cursor actually reads. -/
theorem toList_congr (mem1 mem2 : Int → Int) (a : ArrowArray)
    (h : ∀ j : Int, a.index ≤ j → j < usizeToIsize a.length →
      mem1 ((a.data_addr : Int) + 8 * j) = mem2 ((a.data_addr : Int) + 8 * j)) :
    a.toList mem1 = a.toList mem2 := by
  by_cases hg : a.index ≥ usizeToIsize a.length
  · conv_lhs => rw [ArrowArray.toList]
    conv_rhs => rw [ArrowArray.toList]
    rw [if_pos hg, if_pos hg]
  · have hrec : ArrowArray.toList mem1 { a with index := wrap64 (a.index + 1) }
        = ArrowArray.toList mem2 { a with index := wrap64 (a.index + 1) } := by
      apply toList_congr
      intro j hj1 hj2
      dsimp only at hj1 hj2 ⊢
      refine h j ?_ hj2
      have husz : usizeToIsize a.length = wrap64 ((a.length : Nat) : Int) := rfl
      have hub := wrap64_lt ((a.length : Nat) : Int)
      have hlb2 := wrap64_lb (a.index + 1)
      rcases le_or_lt (-9223372036854775808 : Int) a.index with hc | hc
      · have hw : wrap64 (a.index + 1) = a.index + 1 :=
          wrap64_of_mem (by omega) (by omega)
        omega
      · omega
    conv_lhs => rw [ArrowArray.toList]
    conv_rhs => rw [ArrowArray.toList]
    rw [if_neg hg, if_neg hg, h a.index le_rfl (by omega), hrec]
termination_by (usizeToIsize a.length - a.index).toNat
decreasing_by exact next_measure (by assumption)

/-- When no intermediate difference, absolute value or accumulation leaves the
signed 64-bit range, folding `reduction_udf` agrees with the arbitrary-precision
sum of absolute differences. -/
theorem foldl_reduction_exact (other : Int) :
    ∀ (l : List Int) (accumulator : Int),
    (∀ v ∈ l, -9223372036854775808 < v - other ∧ v - other < 9223372036854775808) →
    0 ≤ accumulator →
    accumulator + (l.map (fun v => |v - other|)).sum < 9223372036854775808 →
    l.foldl (fun acc item => reduction_udf acc item other) accumulator
      = accumulator + (l.map (fun v => |v - other|)).sum := by
  intro l
  induction l with
  | nil =>
    intro accumulator _ _ _
    simp
  | cons v l ih =>
    intro accumulator hrange hacc hsum
    have hv := hrange v (List.mem_cons_self v l)
    have habs : |v - other| < 9223372036854775808 := by
      rw [abs_lt]
      constructor <;> omega
    have habs0 : (0 : Int) ≤ |v - other| := abs_nonneg _
    have htailsum : (0 : Int) ≤ ((l.map (fun v => |v - other|)).sum) := by
      apply List.sum_nonneg
      intro x hx
      simp only [List.mem_map] at hx
      obtain ⟨w, _, hw⟩ := hx
      rw [← hw]
      exact abs_nonneg _
    rw [List.map_cons, List.sum_cons] at hsum ⊢
    rw [List.foldl_cons]
    have hstep : reduction_udf accumulator v other = accumulator + |v - other| := by
      have h1 : wrap64 (v - other) = v - other :=
        wrap64_of_mem (by omega) (by omega)
      have h2 : wrap64 |v - other| = |v - other| :=
        wrap64_of_mem (by omega) (by omega)
      have h3 : wrap64 (accumulator + |v - other|) = accumulator + |v - other| :=
        wrap64_of_mem (by omega) (by omega)
      rw [reduction_udf, h1, h2, h3]
    rw [hstep]
    rw [ih (accumulator + |v - other|)
      (fun w hw => hrange w (List.mem_cons_of_mem v hw))
      (by omega) (by omega)]
    ring

/-- Concrete int64 schema descriptor (format code `"l"`). -/
def schemaW : ArrowCDataInterfaceSchema :=
  { format := "l", name := "", metadata := "", flags := 0, n_children := 0,
    children := 0, dictionary := 0, private_data := 0 }

/-- Concrete float32 schema descriptor (format code `"f"`). -/
def schemaFC : ArrowCDataInterfaceSchema :=
  { schemaW with format := "f" }

/-- Concrete array descriptor: four int64 slots, data buffer at address 1000,
validity bitmap at address 2000. -/
def arrW : ArrowCDataInterfaceArray :=
  { length := 4, null_count := 0, offset := 0, n_buffers := 2, n_children := 0,
    buffers := fun b => if b = 1 then 1000 else 2000,
    children := 0, dictionary := 0, private_data := 0 }

/-- Concrete host memory holding `[3, 7, -2, 10]` at addresses 1000..1024. -/
def memW : Int → Int := fun a =>
  if a = 1000 then 3 else if a = 1008 then 7
  else if a = 1016 then -2 else if a = 1024 then 10 else 0

/-- Concrete descriptor with three declared buffers. -/
def arr3C : ArrowCDataInterfaceArray :=
  { arrW with n_buffers := 3 }

/-- Concrete descriptor with a negative declared length. -/
def arrNegC : ArrowCDataInterfaceArray :=
  { arrW with length := -1 }

/-- The cursor that construction from `arrW` + `schemaW` returns. -/
def cW : ArrowArray :=
  { index := 0, length := 4, data_addr := 1000, validity_addr := 2000 }

/-- C1: for an array of `n` signed 64-bit values and a scalar such that no
intermediate difference, absolute value or accumulation leaves the signed
64-bit range, `reduce_abs_diff_sum` (`euclidean_1d_scalar_sum`) returns the
arbitrary-precision sum of the absolute differences; for length 0 it
returns 0. -/
theorem euclidean_correct (mem : Int → Int) (arr : ArrowCDataInterfaceArray)
    (schema : ArrowCDataInterfaceSchema) (other : Int) (vs : List Int)
    (hfmt : schema.format = "l")
    (hbuf : arr.n_buffers = 2)
    (hlen : arr.length = (vs.length : Int))
    (hlen63 : (vs.length : Int) < 2 ^ 63)
    (hmem : ∀ i : Nat, i < vs.length →
      mem ((arr.buffers 1 : Int) + 8 * (i : Int)) = vs.getD i 0)
    (hdiff : ∀ v ∈ vs, -(2 ^ 63) < v - other ∧ v - other < 2 ^ 63)
    (hsum : (vs.map (fun v => |v - other|)).sum < 2 ^ 63) :
    euclidean_1d_scalar_sum mem arr schema other =
      Except.ok ((vs.map (fun v => |v - other|)).sum) := by
  have hpow : ((2 : Int) ^ 63) = 9223372036854775808 := by norm_num
  rw [hpow] at hlen63 hsum
  have hdt : schema.dtype = some ArrowType.Int64 := by
    rw [ArrowCDataInterfaceSchema.dtype, hfmt]
    rfl
  have hok : ArrowArray.fromRaw arr schema =
      Except.ok { index := 0, length := i64ToUsize arr.length,
                  data_addr := arr.buffers 1, validity_addr := arr.buffers 0 } := by
    rw [ArrowArray.fromRaw, hdt]
    simp [hbuf]
  have hclen : i64ToUsize arr.length = vs.length := by
    have h1 : (i64ToUsize arr.length : Int) = (vs.length : Int) := by
      rw [hlen, i64ToUsize_of_nonneg (by omega) (by omega)]
    exact_mod_cast h1
  have hlist : ArrowArray.toList mem
      { index := 0, length := i64ToUsize arr.length,
        data_addr := arr.buffers 1, validity_addr := arr.buffers 0 } = vs := by
    rw [toList_spec mem vs.length _
      (by dsimp only; rw [hclen]; omega)
      (by dsimp only; omega)
      (by dsimp only; rw [hclen]; omega)]
    apply List.ext_getElem
    · simp
    · intro i h1 h2
      rw [List.getElem_map, List.getElem_range]
      dsimp only
      have hi : i < vs.length := by simpa using h1
      rw [zero_add, hmem i hi, List.getD_eq_getElem vs 0 hi]
  rw [euclidean_1d_scalar_sum, hok]
  show Except.ok (reduceLoop mem other 0
      { index := 0, length := i64ToUsize arr.length,
        data_addr := arr.buffers 1, validity_addr := arr.buffers 0 }) =
    Except.ok ((vs.map (fun v => |v - other|)).sum)
  rw [reduceLoop_eq_foldl, hlist]
  rw [foldl_reduction_exact other vs 0
    (by intro v hv; have := hdiff v hv; rw [hpow] at this; omega)
    le_rfl (by omega)]
  rw [zero_add]

/-- C1 witness: the spec's concrete scenario 1, array `[3, 7, -2, 10]` with
scalar 5, yields `2 + 2 + 7 + 5 = 16`. -/
theorem euclidean_correct_witness :
    euclidean_1d_scalar_sum memW arrW schemaW 5 = Except.ok 16 := by
  have h := euclidean_correct memW arrW schemaW 5 [3, 7, -2, 10]
    rfl rfl rfl (by norm_num) (by decide) (by decide) (by decide)
  simpa using h

/-- C2: a successfully constructed cursor over a descriptor declaring a
non-negative length `L` yields exactly `L` values, in ordinal positions
`0 .. L - 1` in order; the value yielded at position `p` is the 64-bit signed
integer at `data_base + p * 8` bytes, and each yield advances the position by
exactly 1. -/
theorem cursor_length_fidelity (mem : Int → Int) (arr : ArrowCDataInterfaceArray)
    (schema : ArrowCDataInterfaceSchema) (c : ArrowArray)
    (hok : ArrowArray.fromRaw arr schema = Except.ok c)
    (h0 : 0 ≤ arr.length) (h63 : arr.length < 2 ^ 63) :
    (c.toList mem).length = arr.length.toNat
    ∧ c.toList mem = (List.range arr.length.toNat).map
        (fun p : Nat => mem ((c.data_addr : Int) + 8 * (p : Int)))
    ∧ ∀ p : Nat, p < arr.length.toNat →
        ArrowArray.next mem { c with index := (p : Int) } =
          (some (mem ((c.data_addr : Int) + 8 * (p : Int))),
            { c with index := (p : Int) + 1 }) := by
  have hpow : ((2 : Int) ^ 63) = 9223372036854775808 := by norm_num
  rw [hpow] at h63
  obtain ⟨hc, -, -⟩ := fromRaw_ok_shape hok
  subst hc
  have hlen : i64ToUsize arr.length = arr.length.toNat := by
    have h1 := i64ToUsize_of_nonneg h0 (by omega)
    omega
  have hmain : ArrowArray.toList mem
      { index := 0, length := i64ToUsize arr.length,
        data_addr := arr.buffers 1, validity_addr := arr.buffers 0 } =
      (List.range arr.length.toNat).map
        (fun p : Nat => mem (((arr.buffers 1 : Nat) : Int) + 8 * (p : Int))) := by
    rw [toList_spec mem arr.length.toNat _
      (by dsimp only; rw [hlen]; omega)
      (by dsimp only; omega)
      (by dsimp only; rw [hlen]; omega)]
    apply List.map_congr_left
    intro j _
    dsimp only
    rw [zero_add]
  refine ⟨?_, hmain, ?_⟩
  · rw [hmain]
    simp
  · intro p hp
    rw [ArrowArray.next]
    rw [if_neg]
    · dsimp only
      rw [wrap64_of_mem (by omega) (by omega)]
    · dsimp only
      rw [hlen, usizeToIsize_of_lt (by omega)]
      omega

/-- C2 witness: the concrete cursor over `[3, 7, -2, 10]`. -/
theorem cursor_length_fidelity_witness :
    (cW.toList memW).length = arrW.length.toNat
    ∧ cW.toList memW = (List.range arrW.length.toNat).map
        (fun p : Nat => memW ((cW.data_addr : Int) + 8 * (p : Int)))
    ∧ ∀ p : Nat, p < arrW.length.toNat →
        ArrowArray.next memW { cW with index := (p : Int) } =
          (some (memW ((cW.data_addr : Int) + 8 * (p : Int))),
            { cW with index := (p : Int) + 1 }) :=
  cursor_length_fidelity memW arrW schemaW cW rfl (by decide) (by decide)

/-- C3: a descriptor pair whose schema format decodes to a physical type other
than int64 is rejected with the fatal unsupported-type message, and the
rejection happens before any array buffer is accessed: the result is the same
error for every array descriptor. -/
theorem type_gate (schema : ArrowCDataInterfaceSchema) (t : ArrowType)
    (ht : schema.dtype = some t) (hne : t ≠ ArrowType.Int64)
    (arr arr2 : ArrowCDataInterfaceArray) :
    ArrowArray.fromRaw arr schema = Except.error "Extension only implemented for i64"
    ∧ ArrowArray.fromRaw arr schema = ArrowArray.fromRaw arr2 schema := by
  have h : ∀ b : ArrowCDataInterfaceArray,
      ArrowArray.fromRaw b schema = Except.error "Extension only implemented for i64" := by
    intro b
    rw [ArrowArray.fromRaw, ht]
    simp [hne]
  exact ⟨h arr, by rw [h arr, h arr2]⟩

/-- C3 witness: float32 schema (format `"f"`), checked against two different
array descriptors. -/
theorem type_gate_witness :
    ArrowArray.fromRaw arrW schemaFC = Except.error "Extension only implemented for i64"
    ∧ ArrowArray.fromRaw arrW schemaFC = ArrowArray.fromRaw arr3C schemaFC :=
  type_gate schemaFC ArrowType.Float32 rfl (by decide) arrW arr3C

/-- Formalisation of "the message includes the text": a contiguous substring
occurrence at the character-list level. -/
def includesText (msg needle : String) : Prop :=
  ∃ pre post : List Char, msg.data = pre ++ needle.data ++ post

theorem string_data_append (s t : String) : (s ++ t).data = s.data ++ t.data := by
  cases s
  cases t
  rfl

/-- C4 counterexample: an array descriptor with `n_buffers = 3` paired with a
float32 schema is rejected by the earlier type gate, so construction fails
with a message that does not include the observed buffer count 3. -/
theorem buffer_count_counterexample :
    arr3C.n_buffers = 3
    ∧ ArrowArray.fromRaw arr3C schemaFC = Except.error "Extension only implemented for i64"
    ∧ ¬ includesText "Extension only implemented for i64" (toString arr3C.n_buffers) := by
  refine ⟨rfl, rfl, ?_⟩
  rintro ⟨pre, post, h⟩
  have hmem : '3' ∈ "Extension only implemented for i64".data := by
    rw [h]
    have h3 : '3' ∈ (toString arr3C.n_buffers).data := by decide
    simp only [List.mem_append]
    exact Or.inl (Or.inr h3)
  revert hmem
  decide

/-- C4 (amended): for a descriptor pair whose schema format decodes to int64
(the type gate runs first), an array descriptor whose buffer count is not
exactly 2 is rejected as a fatal unsupported-layout condition, and the
rejection message includes the actual observed buffer count. -/
theorem buffer_count_gate (arr : ArrowCDataInterfaceArray)
    (schema : ArrowCDataInterfaceSchema)
    (ht : schema.dtype = some ArrowType.Int64) (hb : arr.n_buffers ≠ 2) :
    ArrowArray.fromRaw arr schema =
      Except.error ("Extension only implemented for 2-buffer arrays, found "
        ++ toString arr.n_buffers)
    ∧ includesText ("Extension only implemented for 2-buffer arrays, found "
        ++ toString arr.n_buffers) (toString arr.n_buffers) := by
  constructor
  · rw [ArrowArray.fromRaw, ht]
    simp [hb]
  · refine ⟨"Extension only implemented for 2-buffer arrays, found ".data, [], ?_⟩
    rw [List.append_nil, string_data_append]

/-- C4 witness: `n_buffers = 3` with an int64 schema is rejected citing 3. -/
theorem buffer_count_gate_witness :
    ArrowArray.fromRaw arr3C schemaW =
      Except.error ("Extension only implemented for 2-buffer arrays, found "
        ++ toString arr3C.n_buffers)
    ∧ includesText ("Extension only implemented for 2-buffer arrays, found "
        ++ toString arr3C.n_buffers) (toString arr3C.n_buffers) :=
  buffer_count_gate arr3C schemaW rfl (by decide)

/-- C6: a cursor whose position has reached its length yields nothing, and
arbitrarily many repeated pulls still yield nothing and never change the
cursor's state. -/
theorem next_exhausted (mem : Int → Int) (a : ArrowArray)
    (h : (a.length : Int) ≤ a.index) :
    a.next mem = (none, a)
    ∧ ∀ k : Nat, Nat.iterate (fun s : ArrowArray => (s.next mem).2) k a = a := by
  have hg : a.index ≥ usizeToIsize a.length := le_trans (usizeToIsize_le a.length) h
  have hnext : a.next mem = (none, a) := by
    rw [ArrowArray.next, if_pos hg]
  refine ⟨hnext, ?_⟩
  intro k
  induction k with
  | zero => rfl
  | succ k ih =>
    rw [Function.iterate_succ_apply', ih]
    show (a.next mem).2 = a
    rw [hnext]

/-- The concrete cursor `cW` after consuming all four values. -/
def cWdone : ArrowArray := { cW with index := 4 }

/-- C6 witness: the exhausted concrete cursor. -/
theorem next_exhausted_witness :
    cWdone.next memW = (none, cWdone)
    ∧ ∀ k : Nat, Nat.iterate (fun s : ArrowArray => (s.next memW).2) k cWdone = cWdone :=
  next_exhausted memW cWdone (by decide)

/-- Concrete two-slot descriptor for the overflow scenario, data buffer at
address 3000, validity bitmap at 4000. -/
def arrOvfC : ArrowCDataInterfaceArray :=
  { arrW with length := 2, buffers := fun b => if b = 1 then 3000 else 4000 }

/-- Concrete host memory holding `[i64::MIN, i64::MAX]` at addresses 3000 and
3008. -/
def memOvf : Int → Int := fun a =>
  if a = 3000 then -(2 ^ 63) else if a = 3008 then 2 ^ 63 - 1 else 0

/-- C5: on the array `[i64::MIN, i64::MAX]` with scalar 0 every accumulation
step wraps modulo `2 ^ 64` and no overflow is detected or reported: the call
still returns a result, namely `-1`, the two's-complement wrap of the
arbitrary-precision sum `2 ^ 64 - 1`. -/
theorem overflow_wraps :
    euclidean_1d_scalar_sum memOvf arrOvfC schemaW 0 = Except.ok (-1)
    ∧ |(-(2 ^ 63) : Int) - 0| + |((2 ^ 63 - 1) : Int) - 0| = 2 ^ 64 - 1
    ∧ wrap64 ((2 : Int) ^ 64 - 1) = -1 := by
  refine ⟨?_, by norm_num, by rw [wrap64_eq]; norm_num⟩
  have hok : ArrowArray.fromRaw arrOvfC schemaW =
      Except.ok { index := 0, length := i64ToUsize arrOvfC.length,
                  data_addr := arrOvfC.buffers 1,
                  validity_addr := arrOvfC.buffers 0 } := by
    rw [ArrowArray.fromRaw]
    rfl
  have hclen : i64ToUsize arrOvfC.length = 2 := by
    have h1 := @i64ToUsize_of_nonneg arrOvfC.length (by norm_num [arrOvfC, arrW])
      (by norm_num [arrOvfC, arrW])
    have h2 : arrOvfC.length = 2 := rfl
    omega
  have hlist : ArrowArray.toList memOvf
      { index := 0, length := i64ToUsize arrOvfC.length,
        data_addr := arrOvfC.buffers 1, validity_addr := arrOvfC.buffers 0 } =
      [-(2 ^ 63), 2 ^ 63 - 1] := by
    rw [toList_spec memOvf 2 _
      (by dsimp only; rw [hclen]; norm_num)
      (by dsimp only; norm_num)
      (by dsimp only; rw [hclen]; norm_num)]
    norm_num [memOvf, arrOvfC, arrW, List.range_succ]
  rw [euclidean_1d_scalar_sum, hok]
  show Except.ok (reduceLoop memOvf 0 0
      { index := 0, length := i64ToUsize arrOvfC.length,
        data_addr := arrOvfC.buffers 1, validity_addr := arrOvfC.buffers 0 }) =
    Except.ok (-1)
  rw [reduceLoop_eq_foldl, hlist]
  have h1 : reduction_udf 0 (-(2 ^ 63)) 0 = -(2 ^ 63) := by
    rw [reduction_udf, wrap64_eq, wrap64_eq, wrap64_eq]
    norm_num
  have h2 : reduction_udf (-(2 ^ 63)) (2 ^ 63 - 1) 0 = -1 := by
    rw [reduction_udf, wrap64_eq, wrap64_eq, wrap64_eq]
    norm_num
  rw [List.foldl_cons, h1, List.foldl_cons, h2, List.foldl_nil]

/-- C7: a freshly constructed cursor has position 0, hence
`0 ≤ position ≤ length`; every advance preserves `0 ≤ position ≤ length`; and
a value is yielded (the data buffer dereferenced) only while
`position < length`. -/
theorem cursor_invariant (mem : Int → Int) (arr : ArrowCDataInterfaceArray)
    (schema : ArrowCDataInterfaceSchema) (c : ArrowArray)
    (hok : ArrowArray.fromRaw arr schema = Except.ok c) :
    (c.index = 0 ∧ 0 ≤ c.index ∧ c.index ≤ (c.length : Int))
    ∧ (∀ a : ArrowArray, 0 ≤ a.index → a.index ≤ (a.length : Int) →
        0 ≤ ((a.next mem).2).index
          ∧ ((a.next mem).2).index ≤ (((a.next mem).2).length : Int))
    ∧ (∀ a : ArrowArray, ((a.next mem).1).isSome → a.index < (a.length : Int)) := by
  obtain ⟨hc, -, -⟩ := fromRaw_ok_shape hok
  refine ⟨by subst hc; exact ⟨rfl, le_rfl, Int.natCast_nonneg _⟩, ?_, ?_⟩
  · intro a h0 h1
    by_cases hg : a.index ≥ usizeToIsize a.length
    · have hs : (a.next mem).2 = a := by
        rw [ArrowArray.next, if_pos hg]
      rw [hs]
      exact ⟨h0, h1⟩
    · have hub := wrap64_lt ((a.length : Nat) : Int)
      have husz : usizeToIsize a.length = wrap64 ((a.length : Nat) : Int) := rfl
      have hle := usizeToIsize_le a.length
      have hw : wrap64 (a.index + 1) = a.index + 1 :=
        wrap64_of_mem (by omega) (by omega)
      have hs : (a.next mem).2 = { a with index := a.index + 1 } := by
        rw [ArrowArray.next, if_neg hg, hw]
      rw [hs]
      dsimp only
      omega
  · intro a hy
    by_cases hg : a.index ≥ usizeToIsize a.length
    · have hs : (a.next mem).1 = none := by
        rw [ArrowArray.next, if_pos hg]
      rw [hs] at hy
      simp at hy
    · have hle := usizeToIsize_le a.length
      omega

/-- C7 witness: the concrete constructed cursor `cW`. -/
theorem cursor_invariant_witness :
    (cW.index = 0 ∧ 0 ≤ cW.index ∧ cW.index ≤ (cW.length : Int))
    ∧ (∀ a : ArrowArray, 0 ≤ a.index → a.index ≤ (a.length : Int) →
        0 ≤ ((a.next memW).2).index
          ∧ ((a.next memW).2).index ≤ (((a.next memW).2).length : Int))
    ∧ (∀ a : ArrowArray, ((a.next memW).1).isSome → a.index < (a.length : Int)) :=
  cursor_invariant memW arrW schemaW cW rfl

/-- C8: the reduction result does not depend on the validity bitmap or the
declared null count: if the two memories agree on the data-buffer slots
(the validity bitmap lives elsewhere), the two calls construct equal cursors,
yield the same sequence of values, and return the same result, for any two
`null_count` values. -/
theorem validity_ignored (arr : ArrowCDataInterfaceArray)
    (schema : ArrowCDataInterfaceSchema) (other nc1 nc2 : Int)
    (mem1 mem2 : Int → Int)
    (hlo : -(2 ^ 63) ≤ arr.length) (hhi : arr.length < 2 ^ 63)
    (hagree : ∀ j : Int, 0 ≤ j → j < arr.length →
      mem1 ((arr.buffers 1 : Int) + 8 * j) = mem2 ((arr.buffers 1 : Int) + 8 * j)) :
    ArrowArray.fromRaw { arr with null_count := nc1 } schema
      = ArrowArray.fromRaw { arr with null_count := nc2 } schema
    ∧ (∀ c, ArrowArray.fromRaw { arr with null_count := nc1 } schema = Except.ok c →
        c.toList mem1 = c.toList mem2)
    ∧ euclidean_1d_scalar_sum mem1 { arr with null_count := nc1 } schema other
      = euclidean_1d_scalar_sum mem2 { arr with null_count := nc2 } schema other := by
  have hpow : ((2 : Int) ^ 63) = 9223372036854775808 := by norm_num
  rw [hpow] at hlo hhi
  have hconstr : ArrowArray.fromRaw { arr with null_count := nc1 } schema
      = ArrowArray.fromRaw { arr with null_count := nc2 } schema := rfl
  have hlists : ∀ c, ArrowArray.fromRaw { arr with null_count := nc1 } schema
      = Except.ok c → c.toList mem1 = c.toList mem2 := by
    intro c hok
    obtain ⟨hc, -, -⟩ := fromRaw_ok_shape hok
    subst hc
    apply toList_congr
    intro j hj1 hj2
    dsimp only at hj1 hj2 ⊢
    have husz : usizeToIsize (i64ToUsize arr.length) = arr.length :=
      usizeToIsize_i64ToUsize (by omega) (by omega)
    rw [husz] at hj2
    exact hagree j hj1 hj2
  refine ⟨hconstr, hlists, ?_⟩
  cases hok : ArrowArray.fromRaw { arr with null_count := nc1 } schema with
  | error e =>
    rw [euclidean_1d_scalar_sum, hok, euclidean_1d_scalar_sum, ← hconstr, hok]
  | ok c =>
    rw [euclidean_1d_scalar_sum, hok, euclidean_1d_scalar_sum, ← hconstr, hok]
    show Except.ok (reduceLoop mem1 other 0 c) = Except.ok (reduceLoop mem2 other 0 c)
    rw [reduceLoop_eq_foldl, reduceLoop_eq_foldl, hlists c hok]

/-- Concrete memory differing from `memW` only in the validity-bitmap byte at
address 2000. -/
def memW2 : Int → Int := fun a => if a = 2000 then 255 else memW a

/-- C8 witness: flipping the validity byte and the null count changes
nothing. -/
theorem validity_ignored_witness :
    ArrowArray.fromRaw { arrW with null_count := 0 } schemaW
      = ArrowArray.fromRaw { arrW with null_count := 4 } schemaW
    ∧ (∀ c, ArrowArray.fromRaw { arrW with null_count := 0 } schemaW = Except.ok c →
        c.toList memW = c.toList memW2)
    ∧ euclidean_1d_scalar_sum memW { arrW with null_count := 0 } schemaW 5
      = euclidean_1d_scalar_sum memW2 { arrW with null_count := 4 } schemaW 5 :=
  validity_ignored arrW schemaW 5 0 4 memW memW2 (by decide) (by decide)
    (by
      intro j h1 h2
      have h4 : arrW.length = 4 := rfl
      rw [h4] at h2
      interval_cases j <;> decide)

/-- C9: the descriptor's offset field is ignored: two descriptors differing
only in offset construct the same cursor, whose reads start at the data
buffer's base address, and produce the same yielded sequence and reduction
result. -/
theorem offset_ignored (arr : ArrowCDataInterfaceArray) (o1 o2 : Int)
    (schema : ArrowCDataInterfaceSchema) (mem : Int → Int) (other : Int) :
    ArrowArray.fromRaw { arr with offset := o1 } schema
      = ArrowArray.fromRaw { arr with offset := o2 } schema
    ∧ euclidean_1d_scalar_sum mem { arr with offset := o1 } schema other
      = euclidean_1d_scalar_sum mem { arr with offset := o2 } schema other
    ∧ (∀ c, ArrowArray.fromRaw { arr with offset := o1 } schema = Except.ok c →
        c.data_addr = arr.buffers 1) := by
  refine ⟨rfl, rfl, ?_⟩
  intro c hok
  obtain ⟨hc, -, -⟩ := fromRaw_ok_shape hok
  subst hc
  rfl

/-- C9 witness: concrete offsets 5 and -7 on the concrete descriptor. -/
theorem offset_ignored_witness :
    ArrowArray.fromRaw { arrW with offset := 5 } schemaW
      = ArrowArray.fromRaw { arrW with offset := -7 } schemaW
    ∧ euclidean_1d_scalar_sum memW { arrW with offset := 5 } schemaW 5
      = euclidean_1d_scalar_sum memW { arrW with offset := -7 } schemaW 5
    ∧ (∀ c, ArrowArray.fromRaw { arrW with offset := 5 } schemaW = Except.ok c →
        c.data_addr = arrW.buffers 1) :=
  offset_ignored arrW 5 (-7) schemaW memW 5

/-- C10: a validated descriptor with a negative declared length constructs a
cursor that is exhausted from the start: the i64 length, cast through usize
and back to isize, recovers the original negative value, so the first pull
already yields nothing (for every memory, i.e. with no buffer dereference)
and the reduction returns 0 for every scalar. -/
theorem negative_length (arr : ArrowCDataInterfaceArray)
    (schema : ArrowCDataInterfaceSchema) (mem : Int → Int) (other : Int)
    (ht : schema.dtype = some ArrowType.Int64) (hb : arr.n_buffers = 2)
    (hneg : arr.length < 0) (hlo : -(2 ^ 63) ≤ arr.length) :
    ∃ c, ArrowArray.fromRaw arr schema = Except.ok c
      ∧ usizeToIsize c.length = arr.length
      ∧ (∀ m : Int → Int, c.next m = (none, c))
      ∧ c.toList mem = []
      ∧ euclidean_1d_scalar_sum mem arr schema other = Except.ok 0 := by
  have hpow : ((2 : Int) ^ 63) = 9223372036854775808 := by norm_num
  rw [hpow] at hlo
  have hok : ArrowArray.fromRaw arr schema =
      Except.ok { index := 0, length := i64ToUsize arr.length,
                  data_addr := arr.buffers 1, validity_addr := arr.buffers 0 } := by
    rw [ArrowArray.fromRaw, ht]
    simp [hb]
  have husz : usizeToIsize (i64ToUsize arr.length) = arr.length :=
    usizeToIsize_i64ToUsize hlo (by omega)
  refine ⟨_, hok, husz, ?_, ?_, ?_⟩
  · intro m
    rw [ArrowArray.next, if_pos]
    show (0 : Int) ≥ usizeToIsize (i64ToUsize arr.length)
    rw [husz]
    omega
  · rw [ArrowArray.toList, if_pos]
    show (0 : Int) ≥ usizeToIsize (i64ToUsize arr.length)
    rw [husz]
    omega
  · rw [euclidean_1d_scalar_sum, hok]
    show Except.ok (reduceLoop mem other 0
        { index := 0, length := i64ToUsize arr.length,
          data_addr := arr.buffers 1, validity_addr := arr.buffers 0 }) =
      Except.ok (0 : Int)
    rw [reduceLoop, if_pos]
    show (0 : Int) ≥ usizeToIsize (i64ToUsize arr.length)
    rw [husz]
    omega

/-- C10 witness: the concrete descriptor with declared length -1. -/
theorem negative_length_witness :
    ∃ c, ArrowArray.fromRaw arrNegC schemaW = Except.ok c
      ∧ usizeToIsize c.length = arrNegC.length
      ∧ (∀ m : Int → Int, c.next m = (none, c))
      ∧ c.toList memW = []
      ∧ euclidean_1d_scalar_sum memW arrNegC schemaW 42 = Except.ok 0 :=
  negative_length arrNegC schemaW memW 42 rfl (by decide) (by decide) (by decide)

end ArrowUdf
